import Mathlib

/-!
# FinancialScrapper — verification of the discovery → scrape → extract pipeline

A shallow embedding, in Lean 4, of the core algorithms of the FinancialScrapper
repository, together with theorems settling the specification claims about them.

Conventions of the embedding:
* Python strings are Lean `String`s; character-level work happens on `String.data`
  (`List Char`).
* Python `float` arithmetic is modelled exactly over `ℚ`.  Every value the
  normalizer produces is a decimal `(i·10^k + f) / 10^k` times a power-of-ten
  multiplier, so it is represented as a single `mkRat`; at every concrete input
  appearing in a theorem the Python float computation is exact, and the model
  agrees with the code there.
* Fallible parsing returns `Option`.
* External capabilities (tokenizer, HTML tag extraction, network fetches, the
  completion provider, the database session) are passed in as explicit function
  arguments or explicit state, mirroring the way the source consumes them.
* The `re` idioms of the source are embedded by their observable behaviour:
  `re.sub` with the alternation `(|R$|US$|€|$|\s)` removes, scanning left to
  right, the first non-empty alternative matching at each position (the
  zero-width first alternative never consumes input in the scan loop), while
  `re.search` with an alternation of literals returns the first alternative
  matching at the leftmost position — which, when the first alternative is the
  empty string, is the empty match at position 0.
-/

namespace FinancialScrapper

/-! ## Value Normalizer — `app/utils/normalization.py` -/

/-- The character class matched by Python `\s` on `str` patterns (ASCII part). -/
def pyIsSpace (c : Char) : Bool :=
  c == ' ' || c == '\t' || c == '\n' || c == '\r' || c == '\x0b' || c == '\x0c'

/-- `re.sub(COIN_SYMBOL_RE, "", text)` for lower-cased `text`:
the scan removes, at each position, the first of the alternatives
`R$`, `US$`, `€`, `$`, whitespace that matches there (case-insensitively; the
input is already lower-cased by the caller), and otherwise keeps the character. -/
def stripCoinSymbols : List Char → List Char
  | [] => []
  | 'r' :: '$' :: rest => stripCoinSymbols rest
  | 'u' :: 's' :: '$' :: rest => stripCoinSymbols rest
  | '€' :: rest => stripCoinSymbols rest
  | '$' :: rest => stripCoinSymbols rest
  | c :: rest => if pyIsSpace c then stripCoinSymbols rest else c :: stripCoinSymbols rest

/-- Python `str.strip()`: remove leading and trailing whitespace. -/
def pyStrip (cs : List Char) : List Char :=
  ((cs.dropWhile pyIsSpace).reverse.dropWhile pyIsSpace).reverse

/-- The decimal-convention step of `normalize_aum_value`: if both `.` and `,`
occur, drop the `.` thousands separators and turn `,` into the decimal point;
otherwise just turn `,` into the decimal point. -/
def applyDecimalConvention (cs : List Char) : List Char :=
  if cs.contains '.' && cs.contains ',' then
    (cs.filter (fun c => !(c == '.'))).map (fun c => if c == ',' then '.' else c)
  else
    cs.map (fun c => if c == ',' then '.' else c)

/-- Value of a digit run, most significant digit first. -/
def digitsToNat (cs : List Char) : Nat :=
  cs.foldl (fun n c => 10 * n + (c.toNat - '0'.toNat)) 0

/-- Python `float(s)` restricted to strings of digits and dots (the only
characters `normalize_aum_value` feeds it): accepted iff it has at least one
digit, only digits and dots, and at most one dot.  The value of
`intpart.fracpart` is the exact rational `(intpart·10^k + fracpart) / 10^k`
where `k` is the number of fractional digits. -/
def parseDecimal (cs : List Char) : Option ℚ :=
  if cs.any Char.isDigit ∧ cs.all (fun c => c.isDigit || c == '.') ∧ cs.count '.' ≤ 1 then
    let intPart := cs.takeWhile (fun c => !(c == '.'))
    let fracPart := (cs.dropWhile (fun c => !(c == '.'))).drop 1
    some (mkRat (digitsToNat intPart * 10 ^ fracPart.length + digitsToNat fracPart)
      (10 ^ fracPart.length))
  else none

/-- The `MULTIPLIERS` table of `normalization.py`; every multiplier is a power
of ten (`1e3` … `1e12`), recorded as the corresponding natural number. -/
def MULTIPLIERS : List (String × Nat) :=
  [("k", 1000), ("mil", 1000), ("thousand", 1000),
   ("m", 1000000), ("mi", 1000000), ("milhão", 1000000), ("milhões", 1000000),
   ("million", 1000000),
   ("b", 1000000000), ("bi", 1000000000), ("bilhão", 1000000000),
   ("bilhões", 1000000000), ("billion", 1000000000),
   ("t", 1000000000000), ("tri", 1000000000000), ("trilhão", 1000000000000),
   ("trilhões", 1000000000000), ("trillion", 1000000000000)]

/-- `MULTIPLIERS[s]` when present, `1.0` otherwise. -/
def lookupMultiplier (s : String) : Nat :=
  match MULTIPLIERS.find? (fun kv => kv.1 == s) with
  | some kv => kv.2
  | none => 1

/-- Exact product of a rational and a natural number, written so that the
kernel can evaluate it (`q * m` as `(q.num·m) / q.den`). -/
def ratMulNat (q : ℚ) (m : Nat) : ℚ := mkRat (q.num * m) q.den

/-- `ratMulNat` agrees with ordinary rational multiplication. -/
theorem ratMulNat_eq (q : ℚ) (m : Nat) : ratMulNat q m = q * m := by
  rw [ratMulNat, Rat.mkRat_eq_div, Int.cast_mul, Int.cast_natCast,
    mul_comm (q.num : ℚ) (m : ℚ), mul_div_assoc, Rat.num_div_den, mul_comm]

/-- `normalize_aum_value` of `app/utils/normalization.py`: lower-case, reject
purely alphabetic strings, strip currency symbols and whitespace, fix the
decimal convention, split into a numeric run (digits and dots, in order) and a
multiplier token (the remaining characters, in order), parse the numeric run as
a float and multiply by the multiplier looked up for the token. -/
def normalize_aum_value (raw_value : String) : Option ℚ :=
  let text0 := raw_value.data.map Char.toLower
  if text0 ≠ [] ∧ text0.all Char.isAlpha then none
  else
    let text1 := applyDecimalConvention (pyStrip (stripCoinSymbols text0))
    let numberPart := text1.filter (fun c => c.isDigit || c == '.')
    let multiplierPart := text1.filter (fun c => !(c.isDigit || c == '.'))
    match parseDecimal numberPart with
    | none => none
    | some n => some (ratMulNat n (lookupMultiplier (String.mk multiplierPart)))

example : normalize_aum_value "R$ 2,3 bi" = some 2300000000 := by decide
example : normalize_aum_value "Invalid Text" = none := by decide

/-- C1: each listed fixture of the Value Normalizer evaluates to exactly the
listed result — "R$ 2,3 bi" ↦ 2.3e9, "$500 million" ↦ 5.0e8,
"1.5 trilhão" ↦ 1.5e12, "US$ 100,5 mil" ↦ 1.005e5, "€ 123.456,78" ↦ 123456.78,
"25b" ↦ 2.5e10, and "Invalid Text" ↦ null — with currency symbols and
whitespace stripped before the numeric run and multiplier token are separated. -/
theorem normalize_aum_value_fixtures :
    normalize_aum_value "R$ 2,3 bi" = some 2300000000 ∧
    normalize_aum_value "$500 million" = some 500000000 ∧
    normalize_aum_value "1.5 trilhão" = some 1500000000000 ∧
    normalize_aum_value "US$ 100,5 mil" = some 100500 ∧
    normalize_aum_value "€ 123.456,78" = some (12345678 / 100) ∧
    normalize_aum_value "25b" = some 25000000000 ∧
    normalize_aum_value "Invalid Text" = none := by
  refine ⟨by decide, by decide, by decide, by decide, ?_, by decide, by decide⟩
  have h : normalize_aum_value "€ 123.456,78" = some (mkRat 12345678 100) := by decide
  rw [h, Rat.mkRat_eq_div]
  norm_num

/-! ## Content Selector — `app/utils/extraction.py` -/

/-- Python `str.lower()` (ASCII case mapping suffices for the embedded data). -/
def pyLower (s : String) : String := String.mk (s.data.map Char.toLower)

/-- Python `str.strip()` on a `String`. -/
def pyStripStr (s : String) : String := String.mk (pyStrip s.data)

/-- Python `str.splitlines()`: split at line boundaries (`\n`, `\r\n`, `\r`),
no trailing empty line, `[]` for the empty string. -/
def splitlinesGo : List Char → List Char → List String
  | [], cur => [String.mk cur.reverse]
  | '\r' :: '\n' :: rest, cur =>
    String.mk cur.reverse :: (match rest with | [] => [] | _ :: _ => splitlinesGo rest [])
  | '\n' :: rest, cur =>
    String.mk cur.reverse :: (match rest with | [] => [] | _ :: _ => splitlinesGo rest [])
  | '\r' :: rest, cur =>
    String.mk cur.reverse :: (match rest with | [] => [] | _ :: _ => splitlinesGo rest [])
  | c :: rest, cur => splitlinesGo rest (c :: cur)

/-- Python `str.splitlines()` on a `String`. -/
def pySplitlines (s : String) : List String :=
  match s.data with
  | [] => []
  | cs => splitlinesGo cs []

/-- `sanitize_paragraph` of `app/utils/extraction.py`: strip every line, keep
the non-empty ones, join with newlines. -/
def sanitize_paragraph (p : String) : String :=
  String.intercalate "\n" (((pySplitlines p).map pyStripStr).filter (fun l => !(l == "")))

/-- `MAX_TOKENS` of `app/utils/extraction.py`. -/
def MAX_TOKENS : Nat := 1350

/-- The selection loop of `extract_relevant_chunks`: walk the paragraph texts
in document order; for a paragraph whose lower-cased text matches the AUM
keyword regex or the monetary-value regex, sanitize it and measure it with the
tokenizer; append it if the running total stays within `MAX_TOKENS`, and
otherwise `break` out of the whole loop.  The tokenizer (`encodeLen`) and the
two regex searches (`hasKeyword`, `hasMonetary`) are external capabilities and
are passed in as functions. -/
def selectChunks (encodeLen : String → Nat) (hasKeyword hasMonetary : String → Bool) :
    Nat → List String → List String
  | _, [] => []
  | total, p :: rest =>
    if hasKeyword (pyLower p) || hasMonetary (pyLower p) then
      let s := sanitize_paragraph p
      let n := encodeLen s
      if total + n ≤ MAX_TOKENS then s :: selectChunks encodeLen hasKeyword hasMonetary (total + n) rest
      else []
    else selectChunks encodeLen hasKeyword hasMonetary total rest

/-- `extract_relevant_chunks` of `app/utils/extraction.py`, over the list of
`p`/`span` tag texts the HTML parser produces (empty markup gives the empty
list of texts).  Returns the selected sanitized chunks joined by newlines, or
the empty string when nothing was selected. -/
def extract_relevant_chunks (encodeLen : String → Nat) (hasKeyword hasMonetary : String → Bool)
    (paragraphs : List String) : String :=
  let chunks := selectChunks encodeLen hasKeyword hasMonetary 0 paragraphs
  if chunks = [] then "" else String.intercalate "\n" chunks

/-- The sanitized texts of all matching paragraphs, in document order —
what the selection would take with an unlimited budget. -/
def relevantChunks (hasKeyword hasMonetary : String → Bool) (paragraphs : List String) :
    List String :=
  (paragraphs.filter (fun p => hasKeyword (pyLower p) || hasMonetary (pyLower p))).map
    sanitize_paragraph

theorem selectChunks_spec (encodeLen : String → Nat) (kw mv : String → Bool)
    (ps : List String) (total : Nat) :
    selectChunks encodeLen kw mv total ps
      = (relevantChunks kw mv ps).take (selectChunks encodeLen kw mv total ps).length ∧
    (total + ((selectChunks encodeLen kw mv total ps).map encodeLen).sum ≤ MAX_TOKENS ∨
      selectChunks encodeLen kw mv total ps = []) ∧
    (∀ s rest,
      (relevantChunks kw mv ps).drop (selectChunks encodeLen kw mv total ps).length = s :: rest →
      MAX_TOKENS < total + ((selectChunks encodeLen kw mv total ps).map encodeLen).sum
        + encodeLen s) := by
  induction ps generalizing total with
  | nil => simp [selectChunks, relevantChunks]
  | cons p rest ih =>
    by_cases hrel : (kw (pyLower p) || mv (pyLower p)) = true
    · by_cases hfit : total + encodeLen (sanitize_paragraph p) ≤ MAX_TOKENS
      · have h := ih (total + encodeLen (sanitize_paragraph p))
        refine ⟨?_, ?_, ?_⟩
        · simp only [selectChunks, relevantChunks, hrel, if_true, hfit,
            List.filter_cons_of_pos, List.map_cons, List.length_cons, List.take_succ_cons]
          exact congrArg _ h.1
        · rcases h.2.1 with h2 | h2
          · left
            simp only [selectChunks, hrel, if_true, hfit, List.map_cons, List.sum_cons]
            omega
          · left
            simp only [selectChunks, hrel, if_true, hfit, h2, List.map_cons, List.sum_cons,
              List.map_nil, List.sum_nil]
            omega
        · intro s rest2 hdrop
          simp only [selectChunks, hrel, if_true, hfit, relevantChunks,
            List.filter_cons_of_pos, List.map_cons, List.length_cons,
            List.drop_succ_cons] at hdrop ⊢
          have h3 := h.2.2 s rest2 hdrop
          simp only [List.sum_cons]
          omega
      · refine ⟨?_, ?_, ?_⟩
        · simp [selectChunks, hrel, hfit]
        · right
          simp [selectChunks, hrel, hfit]
        · intro s rest2 hdrop
          simp only [selectChunks, hrel, if_true, hfit, if_false, List.length_nil,
            List.drop_zero, relevantChunks, List.filter_cons_of_pos, List.map_cons] at hdrop ⊢
          have hs : s = sanitize_paragraph p := by
            exact (List.cons.injEq _ _ _ _ ▸ hdrop).1.symm
          subst hs
          simp only [List.map_nil, List.sum_nil]
          omega
    · have hrel' : (kw (pyLower p) || mv (pyLower p)) = false := by
        simpa using hrel
      have h := ih total
      refine ⟨?_, ?_, ?_⟩
      · simpa [selectChunks, relevantChunks, hrel'] using h.1
      · simpa [selectChunks, hrel'] using h.2.1
      · intro s rest2 hdrop
        have hdrop' : (relevantChunks kw mv rest).drop
            (selectChunks encodeLen kw mv total rest).length = s :: rest2 := by
          simpa [selectChunks, relevantChunks, hrel'] using hdrop
        have hh := h.2.2 s rest2 hdrop'
        simpa [selectChunks, hrel'] using hh

/-- C2: for every paragraph list and every tokenizer length assignment, the
chunks `extract_relevant_chunks` selects are an initial segment of the matching
(sanitized) fragments, their token counts total at most 1350, the first
matching fragment that would exceed the budget terminates selection entirely
(whatever comes after the cut is never included, even if individually small),
and the result is the newline-join of the selection — the empty string when
nothing is selected (in particular for empty markup). -/
theorem extract_relevant_chunks_budget_stop (encodeLen : String → Nat)
    (kw mv : String → Bool) (ps : List String) :
    selectChunks encodeLen kw mv 0 ps
      = (relevantChunks kw mv ps).take (selectChunks encodeLen kw mv 0 ps).length ∧
    ((selectChunks encodeLen kw mv 0 ps).map encodeLen).sum ≤ MAX_TOKENS ∧
    (∀ s rest,
      (relevantChunks kw mv ps).drop (selectChunks encodeLen kw mv 0 ps).length = s :: rest →
      MAX_TOKENS < ((selectChunks encodeLen kw mv 0 ps).map encodeLen).sum + encodeLen s) ∧
    extract_relevant_chunks encodeLen kw mv ps
      = (if selectChunks encodeLen kw mv 0 ps = [] then ""
         else String.intercalate "\n" (selectChunks encodeLen kw mv 0 ps)) := by
  have h := selectChunks_spec encodeLen kw mv ps 0
  refine ⟨h.1, ?_, ?_, rfl⟩
  · rcases h.2.1 with h2 | h2
    · omega
    · simp [h2, MAX_TOKENS]
  · intro s rest hdrop
    have := h.2.2 s rest hdrop
    omega

/-- Witness for C2 at a concrete tokenizer and paragraph list: three matching
fragments of 500 tokens each — the first two fit, the third is cut off. -/
theorem extract_relevant_chunks_budget_stop_witness :
    selectChunks (fun _ => 500) (fun _ => true) (fun _ => false) 0 ["a", "b", "c"]
      = (relevantChunks (fun _ => true) (fun _ => false) ["a", "b", "c"]).take
          (selectChunks (fun _ => 500) (fun _ => true) (fun _ => false) 0 ["a", "b", "c"]).length ∧
    ((selectChunks (fun _ => 500) (fun _ => true) (fun _ => false) 0 ["a", "b", "c"]).map
        (fun _ => 500)).sum ≤ MAX_TOKENS ∧
    (∀ s rest,
      (relevantChunks (fun _ => true) (fun _ => false) ["a", "b", "c"]).drop
          (selectChunks (fun _ => 500) (fun _ => true) (fun _ => false) 0 ["a", "b", "c"]).length
        = s :: rest →
      MAX_TOKENS < ((selectChunks (fun _ => 500) (fun _ => true) (fun _ => false) 0
          ["a", "b", "c"]).map (fun _ => 500)).sum + 500) ∧
    extract_relevant_chunks (fun _ => 500) (fun _ => true) (fun _ => false) ["a", "b", "c"]
      = (if selectChunks (fun _ => 500) (fun _ => true) (fun _ => false) 0 ["a", "b", "c"] = []
         then "" else String.intercalate "\n"
           (selectChunks (fun _ => 500) (fun _ => true) (fun _ => false) 0 ["a", "b", "c"])) :=
  extract_relevant_chunks_budget_stop (fun _ => 500) (fun _ => true) (fun _ => false)
    ["a", "b", "c"]

/-! ## Extraction Agent — `app/workers/agent.py` -/

/-- Python `pat in s` (substring containment) on character lists. -/
def isSubstr (pat : List Char) : List Char → Bool
  | [] => pat.isEmpty
  | c :: rest => pat.isPrefixOf (c :: rest) || isSubstr pat rest

/-- Python `str.upper()` (ASCII case mapping suffices for the embedded data). -/
def pyUpper (s : String) : String := String.mk (s.data.map Char.toUpper)

/-- The not-available sentinel of the extraction prompt. -/
def NOT_AVAILABLE : String := "NAO_DISPONIVEL"

/-- Python `s.lstrip(chars)`: remove the longest leading run of characters
drawn from the character SET `chars` (not the prefix string `chars`). -/
def pyLstrip (chars : String) (s : String) : String :=
  String.mk (s.data.dropWhile (fun c => chars.data.contains c))

/-- The ordered alternatives of the unit pattern `(|R$|US$|€|$)` in
`AIExtractionAgent.extract_aum`; the first alternative is the empty string. -/
def UNIT_PATTERN_ALTS : List String := ["", "R$", "US$", "€", "$"]

/-- The first alternative of `alts` matching (case-insensitively) at the start
of `cs` — how a Python regex alternation of literals matches at one position. -/
def matchAltAt (alts : List String) (cs : List Char) : Option String :=
  alts.find? (fun a => (a.data.map Char.toLower).isPrefixOf (cs.map Char.toLower))

/-- `re.search` with an alternation of literal alternatives: return the match
at the leftmost position where some alternative matches, trying the
alternatives in order at each position. -/
def reSearchAlts (alts : List String) : List Char → Option String
  | [] => matchAltAt alts []
  | c :: rest =>
    match matchAltAt alts (c :: rest) with
    | some a => some a
    | none => reSearchAlts alts rest

/-- The unit extracted from the raw value:
`unit_search.group(1) if unit_search else "USD"`. -/
def unitOf (raw_value : String) : String :=
  match reSearchAlts UNIT_PATTERN_ALTS raw_value.data with
  | some g => g
  | none => "USD"

/-- Because the unit pattern's first alternative is the empty string, the
search always succeeds with the zero-width match at position 0. -/
theorem reSearchAlts_unit (cs : List Char) : reSearchAlts UNIT_PATTERN_ALTS cs = some "" := by
  cases cs with
  | nil => rfl
  | cons c rest => simp [reSearchAlts, matchAltAt, UNIT_PATTERN_ALTS, List.find?]

/-- Python `int(f)` on a finite float value: truncation toward zero, which on
a reduced fraction `num/den` is `num.tdiv den`. -/
def pyInt (q : ℚ) : Int := q.num.tdiv q.den

/-- The `aum_snapshots` row as `extract_aum` constructs it; fields not passed
to the constructor are null. -/
structure AUMSnapshot where
  company_id : Nat
  aum_value : String
  aum_unit : Option String := none
  standardized_value : Option Int := none
  source_url : Option String := none
deriving DecidableEq

/-- What one call of `extract_aum` does with the (stripped) completion
response: persist exactly one snapshot, persist nothing (the logged-warning
path), or raise on destructuring a response that is not exactly three lines. -/
inductive ExtractOutcome where
  | persisted (snapshot : AUMSnapshot)
  | nothingPersisted
  | contractViolation
deriving DecidableEq

/-- The response-parsing tail of `AIExtractionAgent.extract_aum`
(`agent.py` lines 83–108), given the stripped completion response text:
if the upper-cased text contains the sentinel, persist a sentinel-only
snapshot; otherwise destructure into exactly three lines, normalize the first,
and on a truthy (non-zero, non-null) standardized value persist a snapshot
with the raw value, the unit-pattern match, the truncated value, and the
`lstrip`-ed source line; on a falsy one persist nothing. -/
def extract_aum (company_id : Nat) (result_text : String) : ExtractOutcome :=
  if isSubstr NOT_AVAILABLE.data (pyUpper result_text).data then
    .persisted ⟨company_id, NOT_AVAILABLE, none, none, none⟩
  else
    match pySplitlines result_text with
    | [raw_value, _, source_url] =>
      match normalize_aum_value raw_value with
      | some v =>
        if v = 0 then .nothingPersisted
        else
          .persisted ⟨company_id, raw_value, some (unitOf raw_value),
            some (pyInt v), some (pyLstrip "Fonte: " source_url)⟩
      | none => .nothingPersisted
    | _ => .contractViolation

example : extract_aum 1 "R$ 500 milhões\n\nFonte: https://fake.url/report"
    = ExtractOutcome.persisted ⟨1, "R$ 500 milhões", some "", some 500000000,
        some "https://fake.url/report"⟩ := by decide

/-- C3 counterexample: the response "0\nexplanation\nFonte: https://x.com/r"
has no sentinel and exactly three lines, and the Value Normalizer returns the
numeric value 0 for its first line, yet `extract_aum` persists nothing — the
code tests Python truthiness (`if standardized_value:`), which is false at 0. -/
theorem extract_aum_zero_counterexample :
    normalize_aum_value "0" = some 0 ∧
    pySplitlines "0\nexplanation\nFonte: https://x.com/r"
      = ["0", "explanation", "Fonte: https://x.com/r"] ∧
    isSubstr NOT_AVAILABLE.data (pyUpper "0\nexplanation\nFonte: https://x.com/r").data = false ∧
    extract_aum 1 "0\nexplanation\nFonte: https://x.com/r" = ExtractOutcome.nothingPersisted :=
  ⟨by decide, by decide, by decide, by decide⟩

/-- C3 (amended): for every sentinel-free, exactly-three-line response, a
NON-ZERO numeric normalization of the first line persists exactly one snapshot
carrying the raw value, the unit match, the value truncated to an integer, and
the `lstrip`-ed source line; a null OR ZERO normalization persists nothing. -/
theorem extract_aum_persists_iff_normalized (company_id : Nat) (text raw mid src : String)
    (hs : isSubstr NOT_AVAILABLE.data (pyUpper text).data = false)
    (hl : pySplitlines text = [raw, mid, src]) :
    (∀ v : ℚ, normalize_aum_value raw = some v → v ≠ 0 →
      extract_aum company_id text
        = .persisted ⟨company_id, raw, some (unitOf raw), some (pyInt v),
            some (pyLstrip "Fonte: " src)⟩) ∧
    (normalize_aum_value raw = none → extract_aum company_id text = .nothingPersisted) ∧
    (normalize_aum_value raw = some 0 → extract_aum company_id text = .nothingPersisted) := by
  refine ⟨?_, ?_, ?_⟩
  · intro v hn hv
    simp [extract_aum, hs, hl, hn, hv]
  · intro hn
    simp [extract_aum, hs, hl, hn]
  · intro hn
    simp [extract_aum, hs, hl, hn]

/-- Witness for C3 (amended) at the end-to-end fixture response. -/
theorem extract_aum_persists_iff_normalized_witness :
    (∀ v : ℚ, normalize_aum_value "R$ 500 milhões" = some v → v ≠ 0 →
      extract_aum 1 "R$ 500 milhões\n\nFonte: https://fake.url/report"
        = .persisted ⟨1, "R$ 500 milhões", some (unitOf "R$ 500 milhões"), some (pyInt v),
            some (pyLstrip "Fonte: " "Fonte: https://fake.url/report")⟩) ∧
    (normalize_aum_value "R$ 500 milhões" = none →
      extract_aum 1 "R$ 500 milhões\n\nFonte: https://fake.url/report"
        = .nothingPersisted) ∧
    (normalize_aum_value "R$ 500 milhões" = some 0 →
      extract_aum 1 "R$ 500 milhões\n\nFonte: https://fake.url/report"
        = .nothingPersisted) :=
  extract_aum_persists_iff_normalized 1 "R$ 500 milhões\n\nFonte: https://fake.url/report"
    "R$ 500 milhões" "" "Fonte: https://fake.url/report" (by decide) (by decide)

/-- The sentinel itself does not normalize (it has no digits). -/
theorem normalize_sentinel : normalize_aum_value NOT_AVAILABLE = none := by decide

/-- C4: every snapshot `extract_aum` persists has a null standardized value
exactly when its raw value failed normalization or is the not-available
sentinel; a sentinel snapshot has null unit, standardized value and source. -/
theorem persisted_standardized_null_iff (company_id : Nat) (text : String) (s : AUMSnapshot)
    (h : extract_aum company_id text = .persisted s) :
    (s.standardized_value = none ↔
      (normalize_aum_value s.aum_value = none ∨ s.aum_value = NOT_AVAILABLE)) ∧
    (s.aum_value = NOT_AVAILABLE →
      s.aum_unit = none ∧ s.standardized_value = none ∧ s.source_url = none) := by
  unfold extract_aum at h
  split at h
  · injection h with h'
    rw [← h']
    show ((none : Option Int) = none ↔
        normalize_aum_value NOT_AVAILABLE = none ∨ NOT_AVAILABLE = NOT_AVAILABLE) ∧
      (NOT_AVAILABLE = NOT_AVAILABLE →
        (none : Option String) = none ∧ (none : Option Int) = none ∧
          (none : Option String) = none)
    exact ⟨by simp, fun _ => ⟨rfl, rfl, rfl⟩⟩
  · split at h
    · rename_i xs rawv midv srcv heq
      split at h
      · rename_i v hn
        split at h
        · cases h
        · rename_i hv
          injection h with h'
          rw [← h']
          show (some (pyInt v) = none ↔
              normalize_aum_value rawv = none ∨ rawv = NOT_AVAILABLE) ∧
            (rawv = NOT_AVAILABLE →
              some (unitOf rawv) = none ∧ some (pyInt v) = none ∧
                some (pyLstrip "Fonte: " srcv) = none)
          refine ⟨⟨fun hfalse => (nomatch hfalse), ?_⟩, ?_⟩
          · rintro (h1 | h2)
            · rw [hn] at h1; cases h1
            · rw [h2, normalize_sentinel] at hn; cases hn
          · intro hraw
            rw [hraw, normalize_sentinel] at hn; cases hn
      · cases h
    · cases h

/-- Witness for C4 at the sentinel response. -/
theorem persisted_standardized_null_iff_witness :
    ((⟨1, NOT_AVAILABLE, none, none, none⟩ : AUMSnapshot).standardized_value = none ↔
      (normalize_aum_value (⟨1, NOT_AVAILABLE, none, none, none⟩ : AUMSnapshot).aum_value = none ∨
        (⟨1, NOT_AVAILABLE, none, none, none⟩ : AUMSnapshot).aum_value = NOT_AVAILABLE)) ∧
    ((⟨1, NOT_AVAILABLE, none, none, none⟩ : AUMSnapshot).aum_value = NOT_AVAILABLE →
      (⟨1, NOT_AVAILABLE, none, none, none⟩ : AUMSnapshot).aum_unit = none ∧
      (⟨1, NOT_AVAILABLE, none, none, none⟩ : AUMSnapshot).standardized_value = none ∧
      (⟨1, NOT_AVAILABLE, none, none, none⟩ : AUMSnapshot).source_url = none) :=
  persisted_standardized_null_iff 1 "NAO_DISPONIVEL" ⟨1, NOT_AVAILABLE, none, none, none⟩
    (by decide)

/-- C8 counterexample: with third line "Fonte: no.url", the persisted source
URL is ".url", not "no.url" — `lstrip("Fonte: ")` strips the character SET
{F,o,n,t,e,:,space}, eating into a URL that starts with such characters. -/
theorem extract_aum_lstrip_counterexample :
    extract_aum 1 "R$ 2,3 bi\nexplanation\nFonte: no.url"
      = ExtractOutcome.persisted ⟨1, "R$ 2,3 bi", some "", some 2300000000, some ".url"⟩ ∧
    (".url" : String) ≠ "no.url" :=
  ⟨by decide, by decide⟩

/-- Characters outside the stripped set survive `lstrip` intact. -/
theorem dropWhile_append_of_all {p : Char → Bool} (l1 l2 : List Char)
    (h : ∀ c ∈ l1, p c = true) : (l1 ++ l2).dropWhile p = l2.dropWhile p := by
  induction l1 with
  | nil => rfl
  | cons c rest ih =>
    simp only [List.cons_append, List.dropWhile_cons, h c (List.mem_cons_self c rest)]
    exact ih fun c hc => h c (List.mem_cons_of_mem _ hc)

/-- C8 (amended): the snapshot's source URL is the third line with every
leading character drawn from the set {F,o,n,t,e,:,space} removed; a URL whose
first character lies outside that set therefore comes through intact, while a
URL starting with characters of the set loses them. -/
theorem extract_aum_source_url (company_id : Nat) (text raw mid url : String) (v : ℚ)
    (hs : isSubstr NOT_AVAILABLE.data (pyUpper text).data = false)
    (hl : pySplitlines text = [raw, mid, String.append "Fonte: " url])
    (hn : normalize_aum_value raw = some v) (hv : v ≠ 0) :
    extract_aum company_id text
      = .persisted ⟨company_id, raw, some (unitOf raw), some (pyInt v),
          some (pyLstrip "Fonte: " (String.append "Fonte: " url))⟩ ∧
    (∀ c cs, url.data = c :: cs → ("Fonte: " : String).data.contains c = false →
      pyLstrip "Fonte: " (String.append "Fonte: " url) = url) := by
  constructor
  · exact (extract_aum_persists_iff_normalized company_id text raw mid
      (String.append "Fonte: " url) hs hl).1 v hn hv
  · intro c cs hurl hc
    have hall : ∀ d ∈ ("Fonte: " : String).data,
        (fun e => ("Fonte: " : String).data.contains e) d = true := by
      intro d hd
      simpa using List.elem_eq_true_of_mem hd
    unfold pyLstrip
    rw [show String.append "Fonte: " url = "Fonte: " ++ url from rfl,
      String.data_append, dropWhile_append_of_all _ _ hall, hurl]
    simp only [List.dropWhile_cons, hc]
    exact String.ext hurl.symm

/-- Witness for C8 (amended) at the end-to-end fixture response. -/
theorem extract_aum_source_url_witness :
    (extract_aum 7 "R$ 500 milhões\n\nFonte: https://fake.url/report"
      = .persisted ⟨7, "R$ 500 milhões", some (unitOf "R$ 500 milhões"),
          some (pyInt (mkRat 500000000 1)),
          some (pyLstrip "Fonte: " (String.append "Fonte: " "https://fake.url/report"))⟩) ∧
    (∀ c cs, ("https://fake.url/report" : String).data = c :: cs →
      ("Fonte: " : String).data.contains c = false →
      pyLstrip "Fonte: " (String.append "Fonte: " "https://fake.url/report")
        = "https://fake.url/report") :=
  extract_aum_source_url 7 "R$ 500 milhões\n\nFonte: https://fake.url/report"
    "R$ 500 milhões" "" "https://fake.url/report" (mkRat 500000000 1)
    (by decide) (by decide) (by decide) (by decide)

/-- C9 counterexample: the raw value "R$ 2,3 bi" starts with the currency
symbol R$, yet the persisted unit is the empty string — neither "R$" nor the
"USD" default — because the unit pattern's first alternative is empty and
`re.search` returns the zero-width match at position 0. -/
theorem extract_aum_unit_counterexample :
    extract_aum 1 "R$ 2,3 bi\nexplanation\nFonte: https://x.com/r"
      = ExtractOutcome.persisted
          ⟨1, "R$ 2,3 bi", some "", some 2300000000, some "https://x.com/r"⟩ ∧
    (some "" : Option String) ≠ some "R$" ∧ (some "" : Option String) ≠ some "USD" :=
  ⟨by decide, by decide, by decide⟩

/-- C9 (amended): whenever normalization succeeds and a non-sentinel snapshot
is persisted, its unit field is the EMPTY string — the unit pattern
`(|R$|US$|€|$)` always matches the empty string at position 0, so neither a
real currency symbol nor the "USD" default is ever recorded. -/
theorem persisted_unit_always_empty (company_id : Nat) (text : String) (s : AUMSnapshot)
    (h : extract_aum company_id text = .persisted s)
    (hn : s.standardized_value ≠ none) : s.aum_unit = some "" := by
  unfold extract_aum at h
  split at h
  · injection h with h'
    rw [← h'] at hn
    exact absurd rfl hn
  · split at h
    · rename_i xs rawv midv srcv heq
      split at h
      · rename_i v hv
        split at h
        · cases h
        · rename_i hz
          injection h with h'
          rw [← h']
          show some (unitOf rawv) = some ""
          unfold unitOf
          rw [reSearchAlts_unit]
      · cases h
    · cases h

/-- Witness for C9 (amended) at the end-to-end fixture response. -/
theorem persisted_unit_always_empty_witness :
    (⟨1, "R$ 500 milhões", some "", some 500000000,
        some "https://fake.url/report"⟩ : AUMSnapshot).aum_unit = some "" :=
  persisted_unit_always_empty 1 "R$ 500 milhões\n\nFonte: https://fake.url/report"
    ⟨1, "R$ 500 milhões", some "", some 500000000, some "https://fake.url/report"⟩
    (by decide) (by decide)

/-! ## Discovery Engine — `app/services/discovery.py` -/

/-- One parsed search hit: the anchor's text and the resolved target URL. -/
structure SearchResultItem where
  title : String
  url : String
deriving DecidableEq

/-- The seven category buckets of `discovered_urls`. -/
inductive Platform where
  | corporate | linkedin | instagram | twitter | facebook | news | reports
deriving DecidableEq

/-- Python `pat in s` on `String`s. -/
def substrIn (pat s : String) : Bool := isSubstr pat.data s.data

/-- The literal alternatives of `REPORTS_KW`
(`relat[óo]rio|report|balan[çc]o|demonstrativo|investor relations`). -/
def REPORTS_KW_ALTS : List String :=
  ["relatório", "relatorio", "report", "balanço", "balanco", "demonstrativo",
   "investor relations"]

/-- The literal alternatives of `NEWS_KW`
(`notícia|news|jornal|magazine|g1|cnn|bloomberg`). -/
def NEWS_KW_ALTS : List String :=
  ["notícia", "news", "jornal", "magazine", "g1", "cnn", "bloomberg"]

/-- `re.search` of an alternation of literals succeeds iff some alternative
occurs as a substring. -/
def searchAny (alts : List String) (s : String) : Bool :=
  alts.any (fun a => substrIn a s)

/-- The rule chain of `categorize_search_results` for one result: the bucket
the result's URL is added to, or `none` when no rule adds it anywhere (the
Instagram branch with a `stories`/`reel` URL adds to no bucket). -/
def categorize_one (r : SearchResultItem) : Option Platform :=
  let url := r.url
  let title := pyLower r.title
  if substrIn "linkedin.com" url then some .linkedin
  else if substrIn "instagram.com" url then
    (if !(substrIn "stories" url) && !(substrIn "reel" url) then some .instagram else none)
  else if substrIn "twitter.com" url || substrIn "x.com" url then some .twitter
  else if substrIn "facebook.com" url then some .facebook
  else if searchAny REPORTS_KW_ALTS title then some .reports
  else if searchAny NEWS_KW_ALTS title then some .news
  else some .corporate

/-- Add a URL to one bucket of the category map (`set.add`: no duplicates). -/
def addUrl (cats : Platform → List String) (p : Platform) (url : String) :
    Platform → List String :=
  fun q => if q = p then (cats p).insert url else cats q

/-- `categorize_search_results` of `discovery.py`: run the rule chain on each
result in order, mutating the category map. -/
def categorize_search_results (results : List SearchResultItem)
    (cats : Platform → List String) : Platform → List String :=
  results.foldl (fun acc r =>
    match categorize_one r with
    | some p => addUrl acc p r.url
    | none => acc) cats

/-- The empty `discovered_urls` map every discovery run starts from. -/
def emptyCategories : Platform → List String := fun _ => []

/-- Membership in a bucket after categorization: the URL was already there, or
some processed result put it there. -/
theorem mem_categorize (results : List SearchResultItem) (cats0 : Platform → List String)
    (p : Platform) (u : String) :
    u ∈ categorize_search_results results cats0 p ↔
      u ∈ cats0 p ∨ ∃ r ∈ results, r.url = u ∧ categorize_one r = some p := by
  induction results generalizing cats0 with
  | nil => simp [categorize_search_results]
  | cons r rest ih =>
    show u ∈ categorize_search_results rest
        (match categorize_one r with
          | some q => addUrl cats0 q r.url
          | none => cats0) p ↔ _
    rw [ih]
    cases hr : categorize_one r with
    | none =>
      simp only [List.mem_cons]
      constructor
      · rintro (h1 | ⟨r2, h2, h3, h4⟩)
        · exact Or.inl h1
        · exact Or.inr ⟨r2, Or.inr h2, h3, h4⟩
      · rintro (h1 | ⟨r2, (rfl | h2), h3, h4⟩)
        · exact Or.inl h1
        · rw [hr] at h4; cases h4
        · exact Or.inr ⟨r2, h2, h3, h4⟩
    | some q =>
      have haddq : u ∈ addUrl cats0 q r.url p ↔
          u ∈ cats0 p ∨ (p = q ∧ u = r.url) := by
        unfold addUrl
        by_cases hpq : p = q
        · subst hpq
          simp [List.mem_insert_iff, or_comm]
        · simp [hpq]
      rw [haddq]
      simp only [List.mem_cons]
      constructor
      · rintro (⟨h1 | ⟨hpq, hu⟩⟩ | ⟨r2, h2, h3, h4⟩)
        · exact Or.inl h1
        · subst hpq; subst hu
          exact Or.inr ⟨r, Or.inl rfl, rfl, hr⟩
        · exact Or.inr ⟨r2, Or.inr h2, h3, h4⟩
      · rintro (h1 | ⟨r2, (rfl | h2), h3, h4⟩)
        · exact Or.inl (Or.inl h1)
        · rw [hr] at h4
          cases h4
          exact Or.inl (Or.inr ⟨rfl, h3.symm⟩)
        · exact Or.inr ⟨r2, h2, h3, h4⟩

/-- C5 counterexample: an Instagram-domain URL whose path contains "stories"
is placed into NO bucket at all — the categorizer's buckets are not exhaustive
over the input results. -/
theorem categorize_stories_counterexample :
    categorize_one ⟨"Acme Capital", "https://instagram.com/stories/abc"⟩ = none ∧
    (∀ p, categorize_search_results
      [⟨"Acme Capital", "https://instagram.com/stories/abc"⟩] emptyCategories p = []) :=
  ⟨by decide, fun p => by cases p <;> decide⟩

/-- C5 (amended): each result's URL is placed into AT MOST one bucket, chosen
by the first matching rule of the fixed order; an Instagram-domain URL whose
path contains "stories" or "reel" is placed in no bucket; starting from the
empty map, the buckets are pairwise disjoint provided no two results sharing a
URL categorize differently, and a result's URL lands in some bucket exactly
when its rule chain produces a bucket — every non-membership comes from the
Instagram stories/reel exclusion. -/
theorem categorize_search_results_buckets (results : List SearchResultItem)
    (hfun : ∀ r1 ∈ results, ∀ r2 ∈ results, r1.url = r2.url →
      categorize_one r1 = categorize_one r2) :
    (∀ p q, p ≠ q → ∀ u, u ∈ categorize_search_results results emptyCategories p →
      u ∉ categorize_search_results results emptyCategories q) ∧
    (∀ r ∈ results,
      ((∃ p, r.url ∈ categorize_search_results results emptyCategories p) ↔
        categorize_one r ≠ none)) ∧
    (∀ r ∈ results, (categorize_one r = none ↔
      (substrIn "linkedin.com" r.url = false ∧ substrIn "instagram.com" r.url = true ∧
        (substrIn "stories" r.url = true ∨ substrIn "reel" r.url = true)))) := by
  refine ⟨?_, ?_, ?_⟩
  · intro p q hpq u hp hq
    rw [mem_categorize] at hp hq
    rcases hp with h | ⟨r1, hr1, hu1, hc1⟩
    · cases h
    rcases hq with h | ⟨r2, hr2, hu2, hc2⟩
    · cases h
    have := hfun r1 hr1 r2 hr2 (hu1.trans hu2.symm)
    rw [hc1, hc2] at this
    cases this
    exact hpq rfl
  · intro r hr
    constructor
    · rintro ⟨p, hp⟩
      rw [mem_categorize] at hp
      rcases hp with h | ⟨r2, hr2, hu2, hc2⟩
      · cases h
      · have := hfun r hr r2 hr2 hu2.symm
        rw [this, hc2]
        exact fun hfalse => nomatch hfalse
    · intro hne
      cases hc : categorize_one r with
      | none => exact absurd hc hne
      | some p =>
        refine ⟨p, ?_⟩
        rw [mem_categorize]
        exact Or.inr ⟨r, hr, rfl, hc⟩
  · intro r hr
    simp only [categorize_one]
    split_ifs with h1 h2 h3 h4 h5 h6 h7 <;> simp_all
    by_cases hst : substrIn "stories" r.url = true
    · exact Or.inl hst
    · exact Or.inr (h3 (by simpa using hst))

/-- Witness for C5 (amended) at a concrete result list exercising a report
title, a LinkedIn URL, and an excluded Instagram stories URL. -/
theorem categorize_search_results_buckets_witness :
    (∀ p q, p ≠ q → ∀ u,
      u ∈ categorize_search_results
        [⟨"Acme relatório 2024", "https://acme.com/r"⟩,
         ⟨"Acme", "https://linkedin.com/company/acme"⟩,
         ⟨"Acme", "https://instagram.com/stories/abc"⟩] emptyCategories p →
      u ∉ categorize_search_results
        [⟨"Acme relatório 2024", "https://acme.com/r"⟩,
         ⟨"Acme", "https://linkedin.com/company/acme"⟩,
         ⟨"Acme", "https://instagram.com/stories/abc"⟩] emptyCategories q) ∧
    (∀ r ∈ [(⟨"Acme relatório 2024", "https://acme.com/r"⟩ : SearchResultItem),
         ⟨"Acme", "https://linkedin.com/company/acme"⟩,
         ⟨"Acme", "https://instagram.com/stories/abc"⟩],
      ((∃ p, r.url ∈ categorize_search_results
        [⟨"Acme relatório 2024", "https://acme.com/r"⟩,
         ⟨"Acme", "https://linkedin.com/company/acme"⟩,
         ⟨"Acme", "https://instagram.com/stories/abc"⟩] emptyCategories p) ↔
        categorize_one r ≠ none)) ∧
    (∀ r ∈ [(⟨"Acme relatório 2024", "https://acme.com/r"⟩ : SearchResultItem),
         ⟨"Acme", "https://linkedin.com/company/acme"⟩,
         ⟨"Acme", "https://instagram.com/stories/abc"⟩],
      (categorize_one r = none ↔
        (substrIn "linkedin.com" r.url = false ∧ substrIn "instagram.com" r.url = true ∧
          (substrIn "stories" r.url = true ∨ substrIn "reel" r.url = true)))) :=
  categorize_search_results_buckets
    [⟨"Acme relatório 2024", "https://acme.com/r"⟩,
     ⟨"Acme", "https://linkedin.com/company/acme"⟩,
     ⟨"Acme", "https://instagram.com/stories/abc"⟩] (by decide)

/-- One `company_links` row. -/
structure CompanyLinkRow where
  company_id : Nat
  platform : Platform
  url : String
deriving DecidableEq

/-- The pending `CompanyLink` inserts produced by the final loop of
`discover_company_resources` (lines 148–155): for each category's URLs, a row
is added unless a row with that URL already exists.  The session is created
with `autoflush=False` (`app/db/__init__.py`), so every duplicate check SELECT
sees only the committed table `db`, never the rows added earlier in the same
loop. -/
def pendingOfUrls (company_id : Nat) (db : List CompanyLinkRow) (p : Platform) :
    List String → List CompanyLinkRow
  | [] => []
  | url :: rest =>
    if db.any (fun l => l.url == url) then pendingOfUrls company_id db p rest
    else ⟨company_id, p, url⟩ :: pendingOfUrls company_id db p rest

def pendingLinks (company_id : Nat) (db : List CompanyLinkRow) :
    List (Platform × List String) → List CompanyLinkRow
  | [] => []
  | (p, urls) :: rest =>
    pendingOfUrls company_id db p urls ++ pendingLinks company_id db rest

/-- The table one discovery run's `db.commit()` ATTEMPTS to persist: the
previously committed rows plus this run's pending inserts.  Whether the
attempt succeeds is decided by `commitLinks` below, which enforces the
`unique=True` constraint on `company_links.url`. -/
def discoverInsertLinks (company_id : Nat) (discovered : List (Platform × List String))
    (db : List CompanyLinkRow) : List CompanyLinkRow :=
  db ++ pendingLinks company_id db discovered

/-- The URLs of a discovered mapping, flattened in iteration order. -/
def urlsOf : List (Platform × List String) → List String
  | [] => []
  | (_, urls) :: rest => urls ++ urlsOf rest

theorem mem_pendingOfUrls_map (company_id : Nat) (db : List CompanyLinkRow) (p : Platform)
    (urls : List String) (u : String) :
    u ∈ (pendingOfUrls company_id db p urls).map CompanyLinkRow.url ↔
      u ∈ urls ∧ db.any (fun l => l.url == u) = false := by
  induction urls with
  | nil => simp [pendingOfUrls]
  | cons u0 us ih =>
    by_cases h0 : db.any (fun l => l.url == u0) = true
    · rw [pendingOfUrls, if_pos h0, ih]
      constructor
      · rintro ⟨h1, h2⟩
        exact ⟨List.mem_cons_of_mem _ h1, h2⟩
      · rintro ⟨h1, h2⟩
        rcases List.mem_cons.mp h1 with rfl | h1
        · rw [h0] at h2; cases h2
        · exact ⟨h1, h2⟩
    · have h0' : db.any (fun l => l.url == u0) = false := by simpa using h0
      rw [pendingOfUrls, if_neg h0, List.map_cons]
      show u ∈ u0 :: (pendingOfUrls company_id db p us).map CompanyLinkRow.url ↔ _
      rw [List.mem_cons, ih, List.mem_cons]
      constructor
      · rintro (rfl | ⟨h1, h2⟩)
        · exact ⟨Or.inl rfl, h0'⟩
        · exact ⟨Or.inr h1, h2⟩
      · rintro ⟨rfl | h1, h2⟩
        · exact Or.inl rfl
        · exact Or.inr ⟨h1, h2⟩

theorem pendingOfUrls_map_sublist (company_id : Nat) (db : List CompanyLinkRow) (p : Platform)
    (urls : List String) :
    List.Sublist ((pendingOfUrls company_id db p urls).map CompanyLinkRow.url) urls := by
  induction urls with
  | nil => simp [pendingOfUrls]
  | cons u0 us ih =>
    by_cases h0 : db.any (fun l => l.url == u0) = true
    · rw [pendingOfUrls, if_pos h0]
      exact ih.cons u0
    · rw [pendingOfUrls, if_neg h0, List.map_cons]
      exact ih.cons₂ u0

theorem mem_pendingLinks_map (company_id : Nat) (db : List CompanyLinkRow)
    (discovered : List (Platform × List String)) (u : String) :
    u ∈ (pendingLinks company_id db discovered).map CompanyLinkRow.url ↔
      u ∈ urlsOf discovered ∧ db.any (fun l => l.url == u) = false := by
  induction discovered with
  | nil => simp [pendingLinks, urlsOf]
  | cons pu rest ih =>
    obtain ⟨p, urls⟩ := pu
    rw [pendingLinks, urlsOf, List.map_append, List.mem_append, ih,
      mem_pendingOfUrls_map, List.mem_append]
    constructor
    · rintro (⟨h1, h2⟩ | ⟨h1, h2⟩)
      · exact ⟨Or.inl h1, h2⟩
      · exact ⟨Or.inr h1, h2⟩
    · rintro ⟨h1 | h1, h2⟩
      · exact Or.inl ⟨h1, h2⟩
      · exact Or.inr ⟨h1, h2⟩

theorem pendingLinks_map_sublist (company_id : Nat) (db : List CompanyLinkRow)
    (discovered : List (Platform × List String)) :
    List.Sublist ((pendingLinks company_id db discovered).map CompanyLinkRow.url)
      (urlsOf discovered) := by
  induction discovered with
  | nil => simp [pendingLinks, urlsOf]
  | cons pu rest ih =>
    obtain ⟨p, urls⟩ := pu
    rw [pendingLinks, urlsOf, List.map_append]
    exact (pendingOfUrls_map_sublist company_id db p urls).append ih

theorem mem_urlsOf_present (company_id : Nat) (db : List CompanyLinkRow)
    (discovered : List (Platform × List String)) (u : String) (hu : u ∈ urlsOf discovered) :
    (discoverInsertLinks company_id discovered db).any (fun l => l.url == u) = true := by
  rcases hdb : db.any (fun l => l.url == u) with _ | _
  · have hp : u ∈ (pendingLinks company_id db discovered).map CompanyLinkRow.url :=
      (mem_pendingLinks_map company_id db discovered u).mpr ⟨hu, hdb⟩
    rcases List.mem_map.mp hp with ⟨l, hl, hlu⟩
    rw [List.any_eq_true]
    exact ⟨l, List.mem_append_right _ hl, by simp [hlu]⟩
  · rcases List.any_eq_true.mp hdb with ⟨l, hl, hlu⟩
    rw [List.any_eq_true]
    exact ⟨l, List.mem_append_left _ hl, hlu⟩

/-- `db.commit()` for the link batch, under the `unique=True` constraint on
`company_links.url` (`models.py` line 37): the batch is persisted only if the
resulting table keeps URLs globally unique; otherwise the database raises
IntegrityError — which nothing in `discover_company_resources` catches — the
transaction is rolled back, and the table keeps its previous committed state. -/
def commitLinks (db pending : List CompanyLinkRow) : Except String (List CompanyLinkRow) :=
  if ((db ++ pending).map CompanyLinkRow.url).Nodup then .ok (db ++ pending)
  else .error "IntegrityError"

/-- One discovery run's effect on the committed `company_links` table:
accumulate the pending inserts (dedup-checked against committed rows only,
since the session does not autoflush), then commit them in one batch. -/
def discoverCommit (company_id : Nat) (discovered : List (Platform × List String))
    (db : List CompanyLinkRow) : Except String (List CompanyLinkRow) :=
  commitLinks db (pendingLinks company_id db discovered)

/-- Every pending insert of a run is for a URL that no committed row carries. -/
theorem pendingLinks_urls_fresh (company_id : Nat) (db : List CompanyLinkRow)
    (discovered : List (Platform × List String)) :
    ∀ l ∈ pendingLinks company_id db discovered, ∀ l2 ∈ db, l2.url ≠ l.url := by
  intro l hl l2 hl2 hurl
  have hmem : l.url ∈ (pendingLinks company_id db discovered).map CompanyLinkRow.url :=
    List.mem_map.mpr ⟨l, hl, rfl⟩
  have h2 := (mem_pendingLinks_map company_id db discovered l.url).mp hmem
  have hany : db.any (fun l3 => l3.url == l.url) = true :=
    List.any_eq_true.mpr ⟨l2, hl2, by simp [hurl]⟩
  rw [hany] at h2
  cases h2.2

/-- After a run's attempted table, a second run over the same discovered
mapping (for any company) finds every URL present and stages no insert. -/
theorem pendingLinks_after_run (company_id company_id2 : Nat)
    (discovered : List (Platform × List String)) (db : List CompanyLinkRow) :
    pendingLinks company_id2 (discoverInsertLinks company_id discovered db) discovered = [] := by
  rw [List.eq_nil_iff_forall_not_mem]
  intro l hl
  have hmem : l.url ∈ (pendingLinks company_id2
      (discoverInsertLinks company_id discovered db) discovered).map CompanyLinkRow.url :=
    List.mem_map.mpr ⟨l, hl, rfl⟩
  have h2 := (mem_pendingLinks_map company_id2
    (discoverInsertLinks company_id discovered db) discovered l.url).mp hmem
  have h3 := mem_urlsOf_present company_id db discovered l.url h2.1
  rw [h3] at h2
  cases h2.2

/-- When the autoflush-disabled duplicate check lets one URL into two buckets'
pending inserts, the batch violates the unique constraint: the commit raises
IntegrityError and nothing at all is persisted — the committed table never
holds two rows with one URL. -/
theorem discoverCommit_duplicate_aborts :
    discoverCommit 1 [(Platform.reports, ["u"]), (Platform.corporate, ["u"])] []
      = .error "IntegrityError" := by rfl

/-- C6: after discovery commits, no two CompanyLink rows share the same URL,
even across companies — a run's pending `CompanyLink` is staged for a
discovered URL only when no committed row has that URL, the batch commit is
accepted only if the table keeps URLs unique, and re-running discovery against
an unchanged search-provider response (for the same or any other company)
stages nothing and commits the table unchanged. -/
theorem discoverCommit_unique (company_id : Nat)
    (discovered : List (Platform × List String)) (db db' : List CompanyLinkRow)
    (h : discoverCommit company_id discovered db = .ok db') :
    (db'.map CompanyLinkRow.url).Nodup ∧
    (∀ l ∈ pendingLinks company_id db discovered, ∀ l2 ∈ db, l2.url ≠ l.url) ∧
    (∀ company_id2, discoverCommit company_id2 discovered db' = .ok db') := by
  unfold discoverCommit commitLinks at h
  split at h
  · rename_i hnodup
    injection h with h'
    subst h'
    refine ⟨hnodup, pendingLinks_urls_fresh company_id db discovered, ?_⟩
    intro company_id2
    have hnil := pendingLinks_after_run company_id company_id2 discovered db
    unfold discoverInsertLinks at hnil
    unfold discoverCommit commitLinks
    rw [hnil, List.append_nil, if_pos hnodup]
  · cases h

/-- Witness for C6 at a concrete committed table and discovered mapping with a
URL of each kind: one already committed (skipped), one new (inserted). -/
theorem discoverCommit_unique_witness :
    (([⟨1, Platform.corporate, "u1"⟩, ⟨2, Platform.reports, "u2"⟩] :
        List CompanyLinkRow).map CompanyLinkRow.url).Nodup ∧
    (∀ l ∈ pendingLinks 2 [⟨1, Platform.corporate, "u1"⟩] [(Platform.reports, ["u1", "u2"])],
      ∀ l2 ∈ [(⟨1, Platform.corporate, "u1"⟩ : CompanyLinkRow)], l2.url ≠ l.url) ∧
    (∀ company_id2, discoverCommit company_id2 [(Platform.reports, ["u1", "u2"])]
        [⟨1, Platform.corporate, "u1"⟩, ⟨2, Platform.reports, "u2"⟩]
      = .ok [⟨1, Platform.corporate, "u1"⟩, ⟨2, Platform.reports, "u2"⟩]) :=
  discoverCommit_unique 2 [(Platform.reports, ["u1", "u2"])]
    [⟨1, Platform.corporate, "u1"⟩]
    [⟨1, Platform.corporate, "u1"⟩, ⟨2, Platform.reports, "u2"⟩] (by rfl)

/-! ## Scrape Orchestrator — `app/services/scraping.py` -/

/-- One `scrape_logs` row as `scrape_single_url` fills it in. -/
structure ScrapeLogRow where
  company_id : Nat
  url : String
  status : String
  content_length : Nat
  error_msg : Option String
deriving DecidableEq

/-- One `{url, category, content}` item of the returned content list. -/
structure ScrapedPage where
  url : String
  category : Platform
  content : String
deriving DecidableEq

/-- `scrape_single_url`: navigate and capture the page (modelled by the
`fetch` capability, which either yields the rendered markup or throws an error
message).  On success, return the content and a SUCCESS log whose length is
the content's; on any exception, return no content and a FAILED log carrying
the error message, whose length is the error message's. -/
def scrape_single_url (company_id : Nat) (url : String) (fetch : Except String String) :
    Option String × ScrapeLogRow :=
  match fetch with
  | .ok content => (some content, ⟨company_id, url, "SUCCESS", content.length, none⟩)
  | .error e => (none, ⟨company_id, url, "FAILED", e.length, some e⟩)

/-- The fixed `priority_order` of `scrape_discovered_urls`. -/
def PRIORITY_ORDER : List Platform :=
  [.reports, .corporate, .news, .linkedin, .facebook, .instagram, .twitter]

/-- The flattened fetch queue: each category's URLs, in priority order. -/
def urlsToScrape (discovered : Platform → List String) : List (String × Platform) :=
  (PRIORITY_ORDER.map (fun cat => (discovered cat).map (fun u => (u, cat)))).flatten

/-- The log entry of one fetch attempt. -/
def logOf (company_id : Nat) (fetch : String → Except String String)
    (item : String × Platform) : ScrapeLogRow :=
  (scrape_single_url company_id item.1 (fetch item.1)).2

/-- The returned-content item of one fetch attempt, if any: the body of
`scrape_content` appends `{url, category, content}` only under Python
`if content:` — which excludes both a failed fetch (`None`) and an empty
markup string. -/
def pageOf (company_id : Nat) (fetch : String → Except String String)
    (item : String × Platform) : Option ScrapedPage :=
  match (scrape_single_url company_id item.1 (fetch item.1)).1 with
  | some c => if c == "" then none else some ⟨item.1, item.2, c⟩
  | none => none

/-- One iteration of the scraping loop (`scrape_content`): skip falsy URLs;
otherwise record the log entry unconditionally and append the content item
when the fetched content is truthy.  The concurrent units are modelled in the
queue order; the claims proved below do not depend on the interleaving. -/
def scrapeStep (company_id : Nat) (fetch : String → Except String String)
    (acc : List ScrapedPage × List ScrapeLogRow) (item : String × Platform) :
    List ScrapedPage × List ScrapeLogRow :=
  if item.1 == "" then acc
  else (acc.1 ++ (pageOf company_id fetch item).toList, acc.2 ++ [logOf company_id fetch item])

/-- `scrape_discovered_urls`: flatten the mapping in priority order, fetch
each URL, and return the successful content items together with the batch of
log entries committed at the end. -/
def scrape_discovered_urls (company_id : Nat) (discovered : Platform → List String)
    (fetch : String → Except String String) : List ScrapedPage × List ScrapeLogRow :=
  (urlsToScrape discovered).foldl (scrapeStep company_id fetch) ([], [])

/-- C7 counterexample: a fetch that succeeds with EMPTY markup gets a SUCCESS
log of length 0 but no entry in the returned content list — the returned list
does not contain an item for every successful fetch. -/
theorem scrape_empty_content_counterexample :
    scrape_discovered_urls 1
        (fun p => if p = Platform.reports then ["http://a"] else []) (fun _ => .ok "")
      = ([], [⟨1, "http://a", "SUCCESS", 0, none⟩]) ∧
    (fun _ => (Except.ok "" : Except String String)) "http://a" = .ok "" := by
  constructor
  · show (urlsToScrape (fun p => if p = Platform.reports then ["http://a"] else [])).foldl
        (scrapeStep 1 (fun _ => .ok "")) ([], []) = _
    rfl
  · rfl

theorem scrape_fold_spec (company_id : Nat) (fetch : String → Except String String)
    (items : List (String × Platform)) (acc : List ScrapedPage × List ScrapeLogRow) :
    items.foldl (scrapeStep company_id fetch) acc
      = (acc.1 ++ (items.filter (fun item => !(item.1 == ""))).filterMap
            (pageOf company_id fetch),
         acc.2 ++ (items.filter (fun item => !(item.1 == ""))).map
            (logOf company_id fetch)) := by
  induction items generalizing acc with
  | nil => simp
  | cons item rest ih =>
    rw [List.foldl_cons, ih, List.filter_cons]
    by_cases hi : (item.1 == "") = true
    · rw [scrapeStep, if_pos hi]
      simp [hi]
    · have hi' : (!(item.1 == "")) = true := by simpa using hi
      rw [scrapeStep, if_neg hi, hi']
      simp only [if_true, List.filterMap_cons, List.map_cons]
      cases hp : pageOf company_id fetch item with
      | none => simp [hp, List.append_assoc]
      | some pg => simp [hp, List.append_assoc]

/-- C7 (amended): every non-falsy URL of the queue yields exactly one
ScrapeLog entry, in queue order, created even on failure; a log is SUCCESS
with `content_length` the markup's length and no error message exactly when
the fetch succeeded, and FAILED with the error message recorded and
`content_length` the error message's length exactly when it threw; and the
returned content list contains one `{url, category, content}` item for exactly
the successful fetches with NON-EMPTY markup — failed fetches and empty-markup
successes are excluded. -/
theorem scrape_discovered_urls_logs (company_id : Nat) (discovered : Platform → List String)
    (fetch : String → Except String String) :
    (scrape_discovered_urls company_id discovered fetch).2
      = ((urlsToScrape discovered).filter (fun item => !(item.1 == ""))).map
          (logOf company_id fetch) ∧
    (∀ log ∈ (scrape_discovered_urls company_id discovered fetch).2,
      (∃ c, fetch log.url = .ok c ∧ log.status = "SUCCESS" ∧
        log.content_length = c.length ∧ log.error_msg = none) ∨
      (∃ e, fetch log.url = .error e ∧ log.status = "FAILED" ∧
        log.content_length = e.length ∧ log.error_msg = some e)) ∧
    (scrape_discovered_urls company_id discovered fetch).1
      = ((urlsToScrape discovered).filter (fun item => !(item.1 == ""))).filterMap
          (fun item => match fetch item.1 with
            | .ok c => if c == "" then none else some ⟨item.1, item.2, c⟩
            | .error _ => none) := by
  have hfold := scrape_fold_spec company_id fetch (urlsToScrape discovered) ([], [])
  refine ⟨?_, ?_, ?_⟩
  · rw [scrape_discovered_urls, hfold]
    simp
  · intro log hlog
    rw [scrape_discovered_urls, hfold] at hlog
    simp only [List.nil_append] at hlog
    rcases List.mem_map.mp hlog with ⟨item, _, hitem⟩
    subst hitem
    cases hf : fetch item.1 with
    | ok c =>
      left
      refine ⟨c, ?_, ?_, ?_, ?_⟩ <;> simp [logOf, scrape_single_url, hf]
    | error e =>
      right
      refine ⟨e, ?_, ?_, ?_, ?_⟩ <;> simp [logOf, scrape_single_url, hf]
  · rw [scrape_discovered_urls, hfold]
    simp only [List.nil_append]
    apply List.filterMap_congr
    intro item _
    cases hf : fetch item.1 with
    | ok c => simp [pageOf, scrape_single_url, hf]
    | error e => simp [pageOf, scrape_single_url, hf]

/-- A concrete discovered mapping for the C7 witness: one report URL, one
corporate URL, and one empty (skipped) URL. -/
def scrapeWitnessMap : Platform → List String :=
  fun p =>
    if p = Platform.reports then ["http://ok"]
    else if p = Platform.corporate then ["http://bad", ""]
    else []

/-- A concrete fetch-outcome assignment for the C7 witness. -/
def scrapeWitnessFetch : String → Except String String :=
  fun u => if u = "http://ok" then .ok "<html>AUM</html>" else .error "timeout"

/-- Witness for C7 (amended): one report URL that succeeds, one corporate URL
that fails, and an empty URL that is skipped. -/
theorem scrape_discovered_urls_logs_witness :
    (scrape_discovered_urls 3 scrapeWitnessMap scrapeWitnessFetch).2
      = ((urlsToScrape scrapeWitnessMap).filter (fun item => !(item.1 == ""))).map
          (logOf 3 scrapeWitnessFetch) ∧
    (∀ log ∈ (scrape_discovered_urls 3 scrapeWitnessMap scrapeWitnessFetch).2,
      (∃ c, scrapeWitnessFetch log.url = .ok c ∧ log.status = "SUCCESS" ∧
        log.content_length = c.length ∧ log.error_msg = none) ∨
      (∃ e, scrapeWitnessFetch log.url = .error e ∧ log.status = "FAILED" ∧
        log.content_length = e.length ∧ log.error_msg = some e)) ∧
    (scrape_discovered_urls 3 scrapeWitnessMap scrapeWitnessFetch).1
      = ((urlsToScrape scrapeWitnessMap).filter (fun item => !(item.1 == ""))).filterMap
          (fun item => match scrapeWitnessFetch item.1 with
            | .ok c => if c == "" then none else some ⟨item.1, item.2, c⟩
            | .error _ => none) :=
  scrape_discovered_urls_logs 3 scrapeWitnessMap scrapeWitnessFetch

/-! ## Concurrency limiters — `discovery.py` line 125, `scraping.py` line 70

Each phase wraps every concurrent unit in `async with semaphore:` around its
own `asyncio.Semaphore(4)`.  The cooperative scheduler is modelled as a
nondeterministic step relation: a waiting unit may enter its guarded section
only by taking one of the phase's permits, and returns the permit when it
leaves.  The two phases hold two independent semaphores; a step of one phase
leaves the other phase's state untouched. -/

/-- The lifecycle of one concurrent unit (one search query or one URL fetch). -/
inductive UnitState where
  | waiting | running | finished
deriving DecidableEq

/-- One phase's scheduler state: the semaphore's free permits and the units. -/
structure PhaseState where
  permits : Nat
  units : List UnitState
deriving DecidableEq

/-- A phase at its start: `asyncio.Semaphore(4)` fresh, every unit waiting. -/
def initPhase (n : Nat) : PhaseState := ⟨4, List.replicate n .waiting⟩

/-- The semaphore discipline of `async with semaphore:` for one phase. -/
inductive PhaseStep : PhaseState → PhaseState → Prop
  | acquire (s : PhaseState) (i : Nat) (h : s.units[i]? = some .waiting)
      (hp : 0 < s.permits) :
      PhaseStep s ⟨s.permits - 1, s.units.set i .running⟩
  | release (s : PhaseState) (i : Nat) (h : s.units[i]? = some .running) :
      PhaseStep s ⟨s.permits + 1, s.units.set i .finished⟩

/-- The pipeline's two phases, with their separate, never-combined limiters. -/
structure PipelineState where
  discovery : PhaseState
  scraping : PhaseState

/-- A pipeline step is a step of one phase; the other phase is untouched. -/
inductive PipelineStep : PipelineState → PipelineState → Prop
  | discoveryStep {d d' : PhaseState} (s : PhaseState) (h : PhaseStep d d') :
      PipelineStep ⟨d, s⟩ ⟨d', s⟩
  | scrapingStep {s s' : PhaseState} (d : PhaseState) (h : PhaseStep s s') :
      PipelineStep ⟨d, s⟩ ⟨d, s'⟩

/-- The pipeline at its start: both semaphores fresh, all units waiting. -/
def initPipeline (nQueries nUrls : Nat) : PipelineState :=
  ⟨initPhase nQueries, initPhase nUrls⟩

/-- Units currently inside the guarded section of a phase. -/
def inFlight (s : PhaseState) : Nat := s.units.count .running

theorem count_set_of_getElem (l : List UnitState) (i : Nat) (a : UnitState)
    (h : l[i]? = some a) (b c : UnitState) :
    (l.set i b).count c + (if a = c then 1 else 0)
      = l.count c + (if b = c then 1 else 0) := by
  induction l generalizing i with
  | nil => cases h
  | cons x xs ih =>
    cases i with
    | zero =>
      rw [List.getElem?_cons_zero] at h
      injection h with h
      subst h
      simp only [List.set_cons_zero, List.count_cons]
      by_cases hxc : x = c <;> by_cases hbc : b = c <;>
        simp [hxc, hbc]
    | succ j =>
      rw [List.getElem?_cons_succ] at h
      simp only [List.set_cons_succ, List.count_cons]
      have := ih j h
      by_cases hxc : x = c <;> simp [hxc] <;> omega

theorem phase_invariant (s s' : PhaseState) (h : PhaseStep s s')
    (hinv : s.permits + inFlight s = 4) : s'.permits + inFlight s' = 4 := by
  cases h with
  | acquire i hu hp =>
    have hc := count_set_of_getElem s.units i .waiting hu .running .running
    rw [if_neg (by decide : ¬(UnitState.waiting = UnitState.running)), if_pos rfl] at hc
    simp only [inFlight] at hinv ⊢
    omega
  | release i hu =>
    have hc := count_set_of_getElem s.units i .running hu .finished .running
    rw [if_pos rfl, if_neg (by decide : ¬(UnitState.finished = UnitState.running))] at hc
    simp only [inFlight] at hinv ⊢
    omega

/-- C10: in every state reachable from the start of a pipeline run, each
phase's free permits plus its in-flight units equal exactly its own limiter
size 4 — so at most 4 search units are in flight inside the Discovery Engine
and, independently, at most 4 fetch units inside the Scrape Orchestrator, the
two counts being governed by the two separate semaphores. -/
theorem pipeline_concurrency_bound (nQueries nUrls : Nat) (s : PipelineState)
    (h : Relation.ReflTransGen PipelineStep (initPipeline nQueries nUrls) s) :
    s.discovery.permits + inFlight s.discovery = 4 ∧
    s.scraping.permits + inFlight s.scraping = 4 ∧
    inFlight s.discovery ≤ 4 ∧ inFlight s.scraping ≤ 4 := by
  have hmain : s.discovery.permits + inFlight s.discovery = 4 ∧
      s.scraping.permits + inFlight s.scraping = 4 := by
    induction h with
    | refl =>
      constructor <;> simp [initPipeline, initPhase, inFlight, List.count_replicate]
    | tail hsteps hstep ih =>
      cases hstep with
      | discoveryStep sc hp => exact ⟨phase_invariant _ _ hp ih.1, ih.2⟩
      | scrapingStep d hp => exact ⟨ih.1, phase_invariant _ _ hp ih.2⟩
  exact ⟨hmain.1, hmain.2, by omega, by omega⟩

/-- Witness for C10: the bound holds at the initial state of a run with the 8
search queries and, say, 5 discovered URLs. -/
theorem pipeline_concurrency_bound_witness :
    (initPipeline 8 5).discovery.permits + inFlight (initPipeline 8 5).discovery = 4 ∧
    (initPipeline 8 5).scraping.permits + inFlight (initPipeline 8 5).scraping = 4 ∧
    inFlight (initPipeline 8 5).discovery ≤ 4 ∧ inFlight (initPipeline 8 5).scraping ≤ 4 :=
  pipeline_concurrency_bound 8 5 (initPipeline 8 5) Relation.ReflTransGen.refl

end FinancialScrapper
